import Mathlib

/-!
Verification of the Inkwell Markdown viewer (src/main.js, src/renderer/renderer.js):
a shallow embedding of the sanitizing Markdown-compiler hooks, the SVG output
sanitizer, the mermaid render-request protocol, the document reconciliation and
conflict-banner state machine, the save path, the in-document search engine and
the split-view scroll synchronization, together with proofs of the specified
properties.
-/

namespace Inkwell

/-! ## HTML escaping (src/main.js, `escapeHtml`, lines 230-239)

JS: `text.replace(/[&<>"']/g, m => map[m])` with
`{'&':'&amp;','<':'&lt;','>':'&gt;','"':'&quot;',"'":'&#039;'}`. -/

/-- Per-character entity map of `escapeHtml`'s replacement table. -/
def escapeChar (c : Char) : List Char :=
  if c = '&' then "&amp;".data
  else if c = '<' then "&lt;".data
  else if c = '>' then "&gt;".data
  else if c = '"' then "&quot;".data
  else if c = Char.ofNat 39 then "&#039;".data
  else [c]

/-- The global regex replace applies `escapeChar` to every character in order. -/
def escapeList : List Char → List Char
  | [] => []
  | c :: rest => escapeChar c ++ escapeList rest

/-- `escapeHtml` from src/main.js lines 230-239. -/
def escapeHtml (s : String) : String := ⟨escapeList s.data⟩

/-! ## The HTML-token renderer hook (src/main.js, `renderer.html`, lines 290-295)

Any raw HTML token encountered by `marked` is routed through this hook, which
wraps the escaped literal text in a `<pre><code>` block. -/

/-- `renderer.html` from src/main.js lines 291-295:
`<pre><code>${escapeHtml(htmlText || '')}</code></pre>`. -/
def rendererHtml (htmlText : String) : String :=
  "<pre><code>" ++ escapeHtml htmlText ++ "</code></pre>"

/-! ## Link sanitization (src/main.js, `sanitizeLinkHref` lines 244-261,
`renderer.link` lines 266-287) -/

/-- Allowed URL schemes for links (src/main.js line 242). -/
def ALLOWED_LINK_SCHEMES : List String := ["http:", "https:", "mailto:"]

/-- List-level prefix test, used to embed JS `String.prototype.startsWith`. -/
def isPrefixL : List Char → List Char → Bool
  | [], _ => true
  | _ :: _, [] => false
  | a :: as, b :: bs => a = b && isPrefixL as bs

/-- JS `s.startsWith(pre)`. -/
def startsWithL (s pre : String) : Bool := isPrefixL pre.data s.data

/-- JS `s.toLowerCase()`, character-wise. -/
def toLowerS (s : String) : String := ⟨s.data.map Char.toLower⟩

/-- Modelled from the WHATWG URL parser invoked by
`new URL(href, 'http://example.com')`: ASCII tab and newline characters are
removed anywhere, leading and trailing C0-control-or-space characters are
stripped, and then a leading ASCII-alpha run of scheme characters
(`[A-Za-z0-9+\-.]`) terminated by a colon is the scheme, lowercased; a
reference with no such scheme is resolved against the base and takes the base's
scheme `http:`. Returned with the trailing colon, as `url.protocol` does. -/
def urlProtocol (href : String) : String :=
  let noTabNl := href.data.filter fun c => c ≠ Char.ofNat 9 ∧ c ≠ Char.ofNat 10 ∧ c ≠ Char.ofNat 13
  let trimmed := ((noTabNl.dropWhile fun c => c.toNat ≤ 32).reverse.dropWhile
      fun c => c.toNat ≤ 32).reverse
  match trimmed with
  | [] => "http:"
  | c :: rest =>
    if c.isAlpha then
      schemeLoop [c.toLower] rest
    else "http:"
where
  /-- Consume scheme characters until the terminating colon. -/
  schemeLoop (acc : List Char) : List Char → String
    | [] => "http:"
    | c :: rest =>
      if c = ':' then ⟨acc.reverse ++ [':']⟩
      else if c.isAlphanum ∨ c = '+' ∨ c = '-' ∨ c = '.' then
        schemeLoop (c.toLower :: acc) rest
      else "http:"

/-- `sanitizeLinkHref` from src/main.js lines 244-261: empty and
relative/fragment references pass through, allow-listed schemes pass through,
anything else becomes the empty string (link disabled). -/
def sanitizeLinkHref (href : String) : String :=
  if href = "" then ""
  else if startsWithL href "/" ∨ startsWithL href "#" ∨ startsWithL href "./"
      ∨ startsWithL href "../" then href
  else if ALLOWED_LINK_SCHEMES.contains (urlProtocol href) then href
  else ""

/-- `renderer.link` from src/main.js lines 268-287.  A dangerous href degrades
the whole link to the escaped text (`escapeHtml(text || href)`); an allowed
href produces an `<a>` element whose href attribute carries the unchanged
(escaped) target.  The inline-token path (`this.parser.parseInline`) applies
only to the allowed branch and is represented here by the escaped raw text. -/
def rendererLink (href title text : String) : String :=
  let sanitizedHref := sanitizeLinkHref href
  if sanitizedHref = "" then
    escapeHtml (if text = "" then href else text)
  else
    "<a href=\"" ++ escapeHtml sanitizedHref ++ "\"" ++
      (if title = "" then "" else " title=\"" ++ escapeHtml title ++ "\"") ++
      ">" ++ escapeHtml (if text = "" then href else text) ++ "</a>"

/-! ### Facts about escaping -/

theorem escapeChar_no_dangerous (c d : Char) (hd : d ∈ escapeChar c) :
    d ≠ '<' ∧ d ≠ '>' ∧ d ≠ '"' ∧ d ≠ Char.ofNat 39 := by
  unfold escapeChar at hd
  by_cases h1 : c = '&' <;> simp [h1] at hd
  · rcases hd with h | h | h | h | h <;> subst h <;> decide
  · by_cases h2 : c = '<' <;> simp [h2] at hd
    · rcases hd with h | h | h | h <;> subst h <;> decide
    · by_cases h3 : c = '>' <;> simp [h3] at hd
      · rcases hd with h | h | h | h <;> subst h <;> decide
      · by_cases h4 : c = '"' <;> simp [h4] at hd
        · rcases hd with h | h | h | h | h | h <;> subst h <;> decide
        · by_cases h5 : c = Char.ofNat 39 <;> simp [h5] at hd
          · rcases hd with h | h | h | h | h | h <;> subst h <;> decide
          · subst hd; exact ⟨h2, h3, h4, h5⟩

theorem escapeList_no_dangerous (l : List Char) (d : Char) (hd : d ∈ escapeList l) :
    d ≠ '<' ∧ d ≠ '>' ∧ d ≠ '"' ∧ d ≠ Char.ofNat 39 := by
  induction l with
  | nil => simp [escapeList] at hd
  | cons c rest ih =>
    simp only [escapeList, List.mem_append] at hd
    rcases hd with h | h
    · exact escapeChar_no_dangerous c d h
    · exact ih h

theorem escapeHtml_no_dangerous (s : String) (d : Char) (hd : d ∈ (escapeHtml s).data) :
    d ≠ '<' ∧ d ≠ '>' ∧ d ≠ '"' ∧ d ≠ Char.ofNat 39 :=
  escapeList_no_dangerous s.data d hd

theorem escapeHtml_all_safe (s : String) :
    ((escapeHtml s).data.all fun d =>
      !(d = '<') && !(d = '>') && !(d = '"') && !(d = Char.ofNat 39)) = true := by
  rw [List.all_eq_true]
  intro d hd
  obtain ⟨h1, h2, h3, h4⟩ := escapeHtml_no_dangerous s d hd
  simp [h1, h2, h3, h4]

/-- C1: every raw-HTML token reaching the compiler's `renderer.html` hook is
emitted as escaped literal text inside a `<pre><code>` block; the escaped text
contains none of the live-markup characters `<` `>` `"` `'` (each of the
mapped characters having been replaced by its entity), so it can never be
parsed as an element or attribute; in particular the
`<script>alert(1)</script>` source compiles to visible escaped content. -/
theorem html_tokens_render_escaped (s : String) :
    rendererHtml s = "<pre><code>" ++ escapeHtml s ++ "</code></pre>" ∧
    ((escapeHtml s).data.all fun d =>
      !(d = '<') && !(d = '>') && !(d = '"') && !(d = Char.ofNat 39)) = true ∧
    rendererHtml "<script>alert(1)</script>" =
      "<pre><code>&lt;script&gt;alert(1)&lt;/script&gt;</code></pre>" :=
  ⟨rfl, escapeHtml_all_safe s, by decide⟩

theorem sanitizeLinkHref_id_or_empty (href : String) :
    sanitizeLinkHref href = href ∨ sanitizeLinkHref href = "" := by
  unfold sanitizeLinkHref
  split
  · exact Or.inr rfl
  · split
    · exact Or.inl rfl
    · split
      · exact Or.inl rfl
      · exact Or.inr rfl

/-- C2: a hyperlink whose target survives `sanitizeLinkHref` keeps its href
byte-for-byte (the sanitizer never rewrites a target, it only passes it
through or empties it); a link whose target is emptied (any scheme outside
http/https/mailto/fragment/relative, e.g. `javascript:`) is rendered by
`renderer.link` as the plain escaped link text, a string without any `<`
character — hence no `<a>` element and no `href` attribute — while the text
stays visible; concretely `[x](javascript:alert(1))` renders as `x`. -/
theorem link_scheme_allowlist (href title text : String) :
    (sanitizeLinkHref href = href ∨ sanitizeLinkHref href = "") ∧
    (sanitizeLinkHref href = "" →
      rendererLink href title text = escapeHtml (if text = "" then href else text) ∧
      ((rendererLink href title text).data.all fun d => !(d = '<')) = true) ∧
    (sanitizeLinkHref href ≠ "" →
      rendererLink href title text =
        "<a href=\"" ++ escapeHtml href ++ "\"" ++
          (if title = "" then "" else " title=\"" ++ escapeHtml title ++ "\"") ++
          ">" ++ escapeHtml (if text = "" then href else text) ++ "</a>") ∧
    urlProtocol "javascript:alert(1)" = "javascript:" ∧
    sanitizeLinkHref "javascript:alert(1)" = "" ∧
    rendererLink "javascript:alert(1)" "" "x" = "x" := by
  refine ⟨sanitizeLinkHref_id_or_empty href, ?_, ?_, by decide, by decide, by decide⟩
  · intro h
    have hv : rendererLink href title text = escapeHtml (if text = "" then href else text) := by
      unfold rendererLink
      simp [h]
    refine ⟨hv, ?_⟩
    rw [hv, List.all_eq_true]
    intro d hd
    have := (escapeHtml_no_dangerous _ d hd).1
    simp [this]
  · intro h
    have hid : sanitizeLinkHref href = href :=
      (sanitizeLinkHref_id_or_empty href).resolve_right h
    unfold rendererLink
    simp only [hid]
    rw [if_neg (hid ▸ h)]

/-- Witness for C2 at a blocked `javascript:` link and an allowed `https:`
link. -/
theorem link_scheme_allowlist_witness :
    (Inkwell.sanitizeLinkHref "javascript:alert(1)" = "" ∧
      Inkwell.rendererLink "javascript:alert(1)" "" "x" =
        Inkwell.escapeHtml (if "x" = "" then "javascript:alert(1)" else "x")) ∧
    (Inkwell.sanitizeLinkHref "https://e.com" ≠ "" ∧
      Inkwell.rendererLink "https://e.com" "t" "x" =
        "<a href=\"" ++ Inkwell.escapeHtml "https://e.com" ++ "\"" ++
          (if "t" = "" then "" else " title=\"" ++ Inkwell.escapeHtml "t" ++ "\"") ++
          ">" ++ Inkwell.escapeHtml (if "x" = "" then "https://e.com" else "x") ++ "</a>") := by
  constructor
  · have h := Inkwell.link_scheme_allowlist "javascript:alert(1)" "" "x"
    exact ⟨h.2.2.2.2.1, (h.2.1 (by decide)).1⟩
  · have h := Inkwell.link_scheme_allowlist "https://e.com" "t" "x"
    exact ⟨by decide, h.2.2.1 (by decide)⟩

/-! ## SVG output sanitizer (src/renderer/renderer.js, lines 1044-1107)

The diagram output sanitizer parses the returned markup with
`DOMParser('image/svg+xml')`, walks the element tree, removes denylisted
elements and attributes, and re-serializes with `XMLSerializer`.  The parsed
document is embedded as a tree of elements and text nodes; a parse error (or a
non-`svg` root) is the `none` / non-element case. -/

mutual
/-- An XML DOM node: an element with attributes and children, or a text node. -/
inductive XmlNode where
  | text (s : String)
  | elem (name : String) (attrs : List (String × String)) (children : XmlForest)
  deriving DecidableEq
/-- A sibling list of XML DOM nodes. -/
inductive XmlForest where
  | nil
  | cons (x : XmlNode) (xs : XmlForest)
  deriving DecidableEq
end

/-- `DANGEROUS_SVG_ELEMENTS` from src/renderer/renderer.js lines 1044-1047. -/
def DANGEROUS_SVG_ELEMENTS : List String :=
  ["script", "foreignobject", "iframe", "object", "embed",
   "use", "image", "animate", "animatemotion", "animatetransform", "set"]

/-- `DANGEROUS_SVG_ATTRIBUTES` from src/renderer/renderer.js lines 1049-1058. -/
def DANGEROUS_SVG_ATTRIBUTES : List String :=
  ["onload", "onerror", "onclick", "onmouseover", "onmouseout", "onmousedown",
   "onmouseup", "onfocus", "onblur", "onchange", "onsubmit", "onreset",
   "onselect", "onkeydown", "onkeypress", "onkeyup", "ondblclick",
   "oncontextmenu", "ondrag", "ondragend", "ondragenter", "ondragleave",
   "ondragover", "ondragstart", "ondrop", "onmouseenter", "onmouseleave",
   "onmousemove", "onscroll", "onwheel", "ontouchstart", "ontouchmove",
   "ontouchend", "ontouchcancel", "onanimationstart", "onanimationend",
   "onanimationiteration", "ontransitionend", "xlink:href"]

/-- The attribute-removal condition of `sanitizeElement`
(src/renderer/renderer.js lines 1087-1096): denylisted name, any name
beginning with `on`, or an `href` whose value begins with `javascript:`. -/
def removeAttr (name value : String) : Bool :=
  DANGEROUS_SVG_ATTRIBUTES.contains (toLowerS name) ||
  startsWithL (toLowerS name) "on" ||
  (toLowerS name = "href" && startsWithL (toLowerS value) "javascript:")

mutual
/-- `sanitizeElement` from src/renderer/renderer.js lines 1078-1100: a
denylisted element is removed outright (`none`); otherwise its dangerous
attributes are filtered out and its element children sanitized recursively
(text children are untouched, as `el.children` holds elements only). -/
def sanitizeNode : XmlNode → Option XmlNode
  | .text s => some (.text s)
  | .elem name attrs children =>
    if DANGEROUS_SVG_ELEMENTS.contains (toLowerS name) then none
    else some (.elem name (attrs.filter fun a => !removeAttr a.1 a.2)
        (sanitizeForest children))
/-- Sanitize every child, dropping the removed ones. -/
def sanitizeForest : XmlForest → XmlForest
  | .nil => .nil
  | .cons x xs =>
    match sanitizeNode x with
    | none => sanitizeForest xs
    | some y => .cons y (sanitizeForest xs)
end

/-- XML text escaping used by the serializer. -/
def xmlEscapeChar (c : Char) : List Char :=
  if c = '&' then "&amp;".data
  else if c = '<' then "&lt;".data
  else if c = '>' then "&gt;".data
  else if c = '"' then "&quot;".data
  else [c]

/-- XML escaping lifted to strings. -/
def xmlEscape (s : String) : String := ⟨s.data.flatMap xmlEscapeChar⟩

/-- Serialize an attribute list. -/
def serializeAttrs : List (String × String) → String
  | [] => ""
  | (n, v) :: rest => " " ++ n ++ "=\"" ++ xmlEscape v ++ "\"" ++ serializeAttrs rest

mutual
/-- `XMLSerializer.serializeToString`, modelled on the element tree: the
output is generated solely from the (sanitized) tree, never from the original
input string. -/
def serializeNode : XmlNode → String
  | .text s => xmlEscape s
  | .elem name attrs children =>
    match children with
    | .nil => "<" ++ name ++ serializeAttrs attrs ++ "/>"
    | f => "<" ++ name ++ serializeAttrs attrs ++ ">" ++ serializeForest f ++
        "</" ++ name ++ ">"
/-- Serialize a sibling list. -/
def serializeForest : XmlForest → String
  | .nil => ""
  | .cons x xs => serializeNode x ++ serializeForest xs
end

mutual
/-- A node is clean when, at every depth, no element is denylisted, no
attribute name begins with `on` or is denylisted, and no `href` attribute
value begins with `javascript:`. -/
def cleanNode : XmlNode → Bool
  | .text _ => true
  | .elem name attrs children =>
    !DANGEROUS_SVG_ELEMENTS.contains (toLowerS name) &&
    attrs.all (fun a => !removeAttr a.1 a.2) &&
    cleanForest children
/-- Every node of the sibling list is clean. -/
def cleanForest : XmlForest → Bool
  | .nil => true
  | .cons x xs => cleanNode x && cleanForest xs
end

/-- `sanitizeSvg` from src/renderer/renderer.js lines 1060-1107, applied to
the outcome of the `DOMParser` parse: a parse error or a non-`svg` root gives
the empty string; otherwise the root is sanitized recursively and the result
re-serialized from the sanitized tree. -/
def sanitizeSvg : Option XmlNode → String
  | none => ""
  | some (.text _) => ""
  | some (.elem name attrs children) =>
    if toLowerS name = "svg" then
      match sanitizeNode (.elem name attrs children) with
      | some t => serializeNode t
      | none => ""
    else ""

mutual
theorem sanitizeNode_clean : ∀ (x : XmlNode) (y : XmlNode),
    sanitizeNode x = some y → cleanNode y = true
  | .text s, y, h => by
    simp only [sanitizeNode, Option.some.injEq] at h
    subst h; rfl
  | .elem name attrs children, y, h => by
    simp only [sanitizeNode] at h
    split at h
    · exact absurd h (by simp)
    · rename_i hdang
      rw [Option.some.injEq] at h
      subst h
      simp only [cleanNode, Bool.and_eq_true]
      refine ⟨⟨by simpa using hdang, ?_⟩, sanitizeForest_clean children⟩
      rw [List.all_eq_true]
      intro a ha
      exact (List.mem_filter.mp ha).2
theorem sanitizeForest_clean : ∀ (xs : XmlForest),
    cleanForest (sanitizeForest xs) = true
  | .nil => rfl
  | .cons x xs => by
    simp only [sanitizeForest]
    cases h : sanitizeNode x with
    | none => exact sanitizeForest_clean xs
    | some y =>
      simp only [cleanForest, Bool.and_eq_true]
      exact ⟨sanitizeNode_clean x y h, sanitizeForest_clean xs⟩
end

/-- C3: the diagram output sanitizer returns the empty string when the input
does not parse (or its root is not `svg`); in every other case the result is
re-serialized from a sanitized tree that, at every depth, contains no
denylisted element, no denylisted or `on`-prefixed attribute, and no `href`
attribute whose value begins with `javascript:`; concretely a `script` child
of the root is removed. -/
theorem svg_sanitizer_output (parsed : Option XmlNode) :
    (parsed = none → sanitizeSvg parsed = "") ∧
    (sanitizeSvg parsed = "" ∨
      ∃ t, cleanNode t = true ∧ sanitizeSvg parsed = serializeNode t) ∧
    sanitizeSvg (some (.elem "svg" []
      (.cons (.elem "script" [] .nil) .nil))) = "<svg/>" := by
  refine ⟨fun h => by subst h; rfl, ?_, by decide⟩
  match parsed with
  | none => exact Or.inl rfl
  | some (.text s) => exact Or.inl rfl
  | some (.elem name attrs children) =>
    by_cases hname : toLowerS name = "svg"
    · have hdang : DANGEROUS_SVG_ELEMENTS.contains (toLowerS name) = false := by
        rw [hname]; decide
      have hsan : sanitizeNode (.elem name attrs children) =
          some (.elem name (attrs.filter fun a => !removeAttr a.1 a.2)
            (sanitizeForest children)) := by
        unfold sanitizeNode
        rw [hdang]
        simp
      refine Or.inr ⟨.elem name (attrs.filter fun a => !removeAttr a.1 a.2)
          (sanitizeForest children), sanitizeNode_clean _ _ hsan, ?_⟩
      show (if toLowerS name = "svg" then
          match sanitizeNode (.elem name attrs children) with
          | some t => serializeNode t
          | none => ""
        else "") = _
      rw [if_pos hname, hsan]
    · refine Or.inl ?_
      show (if toLowerS name = "svg" then
          match sanitizeNode (.elem name attrs children) with
          | some t => serializeNode t
          | none => ""
        else "") = ""
      rw [if_neg hname]

/-- Witness for C3 at the empty parse and at a malicious concrete tree. -/
theorem svg_sanitizer_output_witness :
    sanitizeSvg none = "" ∧
    (sanitizeSvg (some (.elem "svg" [("onload", "evil()"), ("width", "10")]
        (.cons (.elem "script" [] .nil) .nil))) = "" ∨
      ∃ t, cleanNode t = true ∧
        sanitizeSvg (some (.elem "svg" [("onload", "evil()"), ("width", "10")]
          (.cons (.elem "script" [] .nil) .nil))) = serializeNode t) :=
  ⟨(svg_sanitizer_output none).1 rfl,
   (svg_sanitizer_output (some (.elem "svg" [("onload", "evil()"), ("width", "10")]
      (.cons (.elem "script" [] .nil) .nil)))).2.1⟩

/-! ## Mermaid render-request protocol (src/main.js, lines 12-16, 81-125)

`renderMermaid` assigns `mermaidRequestId++` to each request, stores
`{code, resolve, reject}` in `mermaidPendingRequests`, and arms a 10-second
timeout that deletes the entry and rejects; a response handler deletes the
entry and settles the promise.  JS promises settle at most once: a second
`resolve`/`reject` on a settled promise is a no-op.  The request counter is
embedded as the length of the promise ledger (one ledger slot is appended per
request, so slot `i` is the promise of request id `i`). -/

/-- Fixed per-request timeout (src/main.js line 117). -/
def MERMAID_TIMEOUT_MS : Nat := 10000

/-- Settlement state of one request's promise. -/
inductive PromiseSt where
  | pendingP
  | resolvedP
  | rejectedP
  deriving DecidableEq

/-- The module-level mermaid state: the keys of `mermaidPendingRequests` and
the promise ledger (its length is the next value of `mermaidRequestId`). -/
structure MermaidSt where
  pendingIds : List Nat
  promises : List PromiseSt
  deriving DecidableEq

/-- The initial module state (src/main.js lines 15-16). -/
def mermaidInit : MermaidSt := ⟨[], []⟩

/-- Settle request `id`'s promise: a no-op unless it is still pending
(JS promises settle at most once). -/
def settlePromise (s : MermaidSt) (id : Nat) (st : PromiseSt) : MermaidSt :=
  match s.promises[id]? with
  | some .pendingP => { s with promises := s.promises.set id st }
  | _ => s

/-- `renderMermaid` (src/main.js lines 106-125): allocate the next id and park
the request in the pending map; returns the assigned id. -/
def mermaidRequest (s : MermaidSt) : MermaidSt × Nat :=
  let id := s.promises.length
  (⟨id :: s.pendingIds, s.promises ++ [.pendingP]⟩, id)

/-- The timeout callback (src/main.js lines 112-117): if the id is still
pending, delete it and reject its promise; otherwise do nothing. -/
def mermaidTimeout (s : MermaidSt) (id : Nat) : MermaidSt :=
  if id ∈ s.pendingIds then
    settlePromise { s with pendingIds := s.pendingIds.filter (· ≠ id) } id .rejectedP
  else s

/-- The response handler installed by `processMermaidQueue`
(src/main.js lines 86-102): delete the id from the pending map (a no-op when
absent) and settle the captured promise — resolve on an svg result, reject on
an error result. -/
def mermaidResponse (s : MermaidSt) (id : Nat) (ok : Bool) : MermaidSt :=
  settlePromise { s with pendingIds := s.pendingIds.filter (· ≠ id) } id
    (if ok then .resolvedP else .rejectedP)

/-- The asynchronous events of the protocol. -/
inductive MEvent where
  | request
  | timeout (id : Nat)
  | response (id : Nat) (ok : Bool)

/-- One scheduler step. -/
def mermaidStep (s : MermaidSt) : MEvent → MermaidSt
  | .request => (mermaidRequest s).1
  | .timeout id => mermaidTimeout s id
  | .response id ok => mermaidResponse s id ok

/-- Run a trace of events from the initial module state. -/
def mermaidRun (tr : List MEvent) : MermaidSt :=
  tr.foldl mermaidStep mermaidInit

/-- Protocol invariant: ids in the pending map are exactly the issued ids
whose promise is still pending. -/
def MermaidInv (s : MermaidSt) : Prop :=
  (∀ id ∈ s.pendingIds, s.promises[id]? = some .pendingP) ∧
  (∀ id, s.promises[id]? = some .pendingP → id ∈ s.pendingIds)

theorem mermaidInv_init : MermaidInv mermaidInit := by
  constructor <;> intro id h <;> simp [mermaidInit] at h

theorem mermaidInv_step (s : MermaidSt) (e : MEvent) (h : MermaidInv s) :
    MermaidInv (mermaidStep s e) := by
  obtain ⟨h1, h2⟩ := h
  cases e with
  | request =>
    constructor
    · intro id hid
      simp only [mermaidStep, mermaidRequest, List.mem_cons] at hid ⊢
      rcases hid with rfl | hid
      · simp
      · have := h1 id hid
        have hlt : id < s.promises.length := by
          by_contra hge
          rw [List.getElem?_eq_none (by omega)] at this
          exact Option.noConfusion this
        rw [List.getElem?_append_left hlt]
        exact this
    · intro id hid
      simp only [mermaidStep, mermaidRequest] at hid ⊢
      by_cases hlt : id < s.promises.length
      · rw [List.getElem?_append_left hlt] at hid
        exact List.mem_cons_of_mem _ (h2 id hid)
      · have hlen : id < s.promises.length + 1 := by
          by_contra hge
          rw [List.getElem?_eq_none (by simp; omega)] at hid
          exact Option.noConfusion hid
        have : id = s.promises.length := by omega
        subst this
        exact List.mem_cons_self _ _
  | timeout tid =>
    simp only [mermaidStep, mermaidTimeout]
    by_cases hmem : tid ∈ s.pendingIds
    · rw [if_pos hmem]
      have hp := h1 tid hmem
      simp only [settlePromise, hp]
      constructor
      · intro id hid
        rw [List.mem_filter] at hid
        obtain ⟨hid, hne⟩ := hid
        have : id ≠ tid := by simpa using hne
        rw [List.getElem?_set_ne (by omega)]
        exact h1 id hid
      · intro id hid
        by_cases heq : id = tid
        · subst heq
          have hlt : id < s.promises.length := by
            by_contra hge
            rw [List.getElem?_eq_none (by omega)] at hp
            exact Option.noConfusion hp
          rw [List.getElem?_set_self hlt] at hid
          exact absurd hid (by simp)
        · rw [List.getElem?_set_ne (fun h => heq h.symm)] at hid
          rw [List.mem_filter]
          exact ⟨h2 id hid, by simpa using heq⟩
    · rw [if_neg hmem]
      exact ⟨h1, h2⟩
  | response rid ok =>
    simp only [mermaidStep, mermaidResponse, settlePromise]
    cases hp : s.promises[rid]? with
    | none =>
      simp only
      constructor
      · intro id hid
        exact h1 id (List.mem_filter.mp hid).1
      · intro id hid
        rw [List.mem_filter]
        refine ⟨h2 id hid, ?_⟩
        have : id ≠ rid := fun h => by subst h; rw [hp] at hid; exact Option.noConfusion hid
        simpa using this
    | some st =>
      cases st with
      | pendingP =>
        simp only
        constructor
        · intro id hid
          rw [List.mem_filter] at hid
          obtain ⟨hid, hne⟩ := hid
          have : id ≠ rid := by simpa using hne
          rw [List.getElem?_set_ne (by omega)]
          exact h1 id hid
        · intro id hid
          by_cases heq : id = rid
          · subst heq
            have hlt : id < s.promises.length := by
              by_contra hge
              rw [List.getElem?_eq_none (by omega)] at hp
              exact Option.noConfusion hp
            rw [List.getElem?_set_self hlt] at hid
            have : (if ok then PromiseSt.resolvedP else PromiseSt.rejectedP) ≠ .pendingP := by
              cases ok <;> simp
            rw [Option.some.injEq] at hid
            exact absurd hid this
          · rw [List.getElem?_set_ne (fun h => heq h.symm)] at hid
            rw [List.mem_filter]
            exact ⟨h2 id hid, by simpa using heq⟩
      | resolvedP =>
        simp only
        constructor
        · intro id hid
          exact h1 id (List.mem_filter.mp hid).1
        · intro id hid
          rw [List.mem_filter]
          refine ⟨h2 id hid, ?_⟩
          have : id ≠ rid := fun h => by
            subst h; rw [hp] at hid; rw [Option.some.injEq] at hid; exact PromiseSt.noConfusion hid
          simpa using this
      | rejectedP =>
        simp only
        constructor
        · intro id hid
          exact h1 id (List.mem_filter.mp hid).1
        · intro id hid
          rw [List.mem_filter]
          refine ⟨h2 id hid, ?_⟩
          have : id ≠ rid := fun h => by
            subst h; rw [hp] at hid; rw [Option.some.injEq] at hid; exact PromiseSt.noConfusion hid
          simpa using this

theorem mermaidInv_run (tr : List MEvent) : MermaidInv (mermaidRun tr) := by
  suffices h : ∀ s, MermaidInv s → MermaidInv (tr.foldl mermaidStep s) from
    h mermaidInit mermaidInv_init
  induction tr with
  | nil => exact fun s hs => hs
  | cons e rest ih =>
    intro s hs
    exact ih _ (mermaidInv_step s e hs)

theorem settlePromise_length (s : MermaidSt) (id : Nat) (st : PromiseSt) :
    (settlePromise s id st).promises.length = s.promises.length := by
  unfold settlePromise
  split <;> simp

theorem mermaidStep_length_mono (s : MermaidSt) (e : MEvent) :
    s.promises.length ≤ (mermaidStep s e).promises.length := by
  cases e with
  | request => simp [mermaidStep, mermaidRequest]
  | timeout id =>
    simp only [mermaidStep, mermaidTimeout]
    split
    · rw [settlePromise_length]
    · exact Nat.le_refl _
  | response id ok =>
    simp only [mermaidStep, mermaidResponse]
    rw [settlePromise_length]

theorem mermaidRun_length_mono (tr tr' : List MEvent) :
    (mermaidRun tr).promises.length ≤ (mermaidRun (tr ++ tr')).promises.length := by
  unfold mermaidRun
  rw [List.foldl_append]
  generalize tr.foldl mermaidStep mermaidInit = s
  induction tr' generalizing s with
  | nil => exact Nat.le_refl _
  | cons e rest ih =>
    exact Nat.le_trans (mermaidStep_length_mono s e) (ih (mermaidStep s e))

/-- C4: along every event trace of the mermaid protocol, (a) a new render
request is assigned the current counter value, every id ever assigned is
strictly below it and the counter only grows (ids are monotonic, never
reused); the per-request timeout is the fixed 10 seconds; (b) when the
timeout for a pending id fires, that id is removed from the pending set and
its promise is rejected; (c) a response arriving for an id that is no longer
pending — removed by timeout or by an earlier settlement — leaves the whole
state exactly unchanged, so it can never resolve, reject, or be matched to
any request. -/
theorem mermaid_request_protocol (tr : List MEvent) :
    MERMAID_TIMEOUT_MS = 10000 ∧
    ((mermaidRequest (mermaidRun tr)).2 = (mermaidRun tr).promises.length ∧
     (mermaidRun (tr ++ [.request])).promises.length =
       (mermaidRun tr).promises.length + 1 ∧
     ∀ tr', (mermaidRun tr).promises.length ≤
       (mermaidRun (tr ++ tr')).promises.length) ∧
    (∀ id, id ∈ (mermaidRun tr).pendingIds →
      id ∉ (mermaidStep (mermaidRun tr) (.timeout id)).pendingIds ∧
      (mermaidStep (mermaidRun tr) (.timeout id)).promises[id]? = some .rejectedP) ∧
    (∀ id ok, id ∉ (mermaidRun tr).pendingIds →
      mermaidStep (mermaidRun tr) (.response id ok) = mermaidRun tr) := by
  obtain ⟨hinv1, hinv2⟩ := mermaidInv_run tr
  refine ⟨rfl, ⟨rfl, ?_, mermaidRun_length_mono tr⟩, ?_, ?_⟩
  · show (mermaidRun (tr ++ [.request])).promises.length = _
    unfold mermaidRun
    rw [List.foldl_append]
    simp [mermaidStep, mermaidRequest, mermaidRun]
  · intro id hmem
    have hp := hinv1 id hmem
    have hlt : id < (mermaidRun tr).promises.length := by
      by_contra hge
      rw [List.getElem?_eq_none (by omega)] at hp
      exact Option.noConfusion hp
    simp only [mermaidStep, mermaidTimeout, if_pos hmem, settlePromise, hp]
    constructor
    · intro hc
      rw [List.mem_filter] at hc
      simp at hc
    · exact List.getElem?_set_self hlt
  · intro id ok hno
    have hfilter : (mermaidRun tr).pendingIds.filter (fun x => !decide (x = id)) =
        (mermaidRun tr).pendingIds := by
      rw [List.filter_eq_self]
      intro a ha
      simp only [Bool.not_eq_eq_eq_not, Bool.not_true, decide_eq_false_iff_not]
      exact fun h => hno (h ▸ ha)
    simp only [mermaidStep, mermaidResponse, settlePromise]
    cases hp : (mermaidRun tr).promises[id]? with
    | none => simp [hfilter]
    | some st =>
      cases st with
      | pendingP => exact absurd (hinv2 id hp) hno
      | resolvedP => simp [hfilter]
      | rejectedP => simp [hfilter]

/-- Witness for C4: after a single request, its timeout removes and rejects
it; after that, a late response for it changes nothing. -/
theorem mermaid_request_protocol_witness :
    (0 ∈ (mermaidRun [.request]).pendingIds ∧
      0 ∉ (mermaidStep (mermaidRun [.request]) (.timeout 0)).pendingIds ∧
      (mermaidStep (mermaidRun [.request]) (.timeout 0)).promises[0]? =
        some .rejectedP) ∧
    (0 ∉ (mermaidRun [.request, .timeout 0]).pendingIds ∧
      mermaidStep (mermaidRun [.request, .timeout 0]) (.response 0 true) =
        mermaidRun [.request, .timeout 0]) := by
  have h1 := mermaid_request_protocol [.request]
  have h2 := mermaid_request_protocol [.request, .timeout 0]
  exact ⟨⟨by decide, (h1.2.2.1 0 (by decide)).1, (h1.2.2.1 0 (by decide)).2⟩,
         by decide, h2.2.2.2 0 true (by decide)⟩

/-! ## Document reconciliation and the conflict banner
(src/renderer/renderer.js, `onFileChanged` lines 1794-1809,
`showConflictBanner` lines 1811-1854, `renderSource` lines 1143-1166)

The renderer's document state: `currentRaw`/`currentHtml`, the dirty flag,
the pending external snapshot (`pendingExternalHtml`/`pendingExternalRaw`),
the conflict banner element (created at most once, then reused), and the
editable buffer (the `source-editor` textarea, whose value is set from
`currentRaw` on every render and mirrored back into `currentRaw` on input). -/

structure DocSt where
  currentRaw : String
  currentHtml : String
  dirty : Bool
  pendingRaw : Option String
  pendingHtml : Option String
  /-- Whether the `conflict-banner` element exists in the DOM. -/
  bannerExists : Bool
  /-- Whether the banner is currently shown (its `hidden` class removed). -/
  bannerVisible : Bool
  /-- How many banner elements have ever been created (prompt count). -/
  bannersCreated : Nat
  /-- Value of the `source-editor` textarea. -/
  editorValue : String
  deriving DecidableEq

/-- `showConflictBanner` (lines 1815-1854): stash the external snapshot,
create the banner element only if it does not already exist, and show it. -/
def showConflictBanner (s : DocSt) (html raw : String) : DocSt :=
  { s with pendingHtml := some html, pendingRaw := some raw,
           bannersCreated := if s.bannerExists then s.bannersCreated
                             else s.bannersCreated + 1,
           bannerExists := true,
           bannerVisible := true }

/-- The `file-changed` listener (lines 1795-1809): with unsaved changes the
external snapshot only raises the conflict banner; otherwise it is adopted
immediately and the view re-rendered (in an editable mode the editor buffer
is re-filled from `currentRaw`). -/
def onFileChanged (s : DocSt) (html raw : String) : DocSt :=
  if s.dirty then showConflictBanner s html raw
  else { s with currentHtml := html, currentRaw := raw, editorValue := raw }

/-- The `conflict-reload` click handler (lines 1832-1843): hide the banner,
adopt the pending external snapshot as the document content, clear dirty,
re-render (refilling the editor buffer), and drop the snapshot.
`pendingExternalHtml` and `pendingExternalRaw` are always set and cleared
together, so the JS null test on the html half is matched on both. -/
def conflictReload (s : DocSt) : DocSt :=
  let s1 := { s with bannerVisible := false }
  match s1.pendingHtml, s1.pendingRaw with
  | some h, some r =>
    { s1 with currentHtml := h, currentRaw := r, dirty := false,
              editorValue := r, pendingHtml := none, pendingRaw := none }
  | _, _ => { s1 with pendingHtml := none, pendingRaw := none }

/-- The `conflict-keep` click handler (lines 1845-1850): hide the banner and
discard the external snapshot; nothing else changes. -/
def conflictKeep (s : DocSt) : DocSt :=
  { s with bannerVisible := false, pendingHtml := none, pendingRaw := none }

/-- C5: while `dirty` is set, an external file-change event leaves
`currentRaw`, `currentHtml` and the editable buffer untouched and only parks
the external snapshot behind the conflict banner; a second external change
while one is pending replaces the snapshot without creating a second banner;
`keep` discards the snapshot and leaves the buffer and content unchanged;
`reload` adopts the external content exactly (content, buffer) and clears
`dirty`. -/
theorem dirty_external_change_conflict (s : DocSt) (html raw : String)
    (hdirty : s.dirty = true) :
    ((onFileChanged s html raw).currentRaw = s.currentRaw ∧
     (onFileChanged s html raw).currentHtml = s.currentHtml ∧
     (onFileChanged s html raw).editorValue = s.editorValue ∧
     (onFileChanged s html raw).dirty = true ∧
     (onFileChanged s html raw).pendingRaw = some raw ∧
     (onFileChanged s html raw).pendingHtml = some html ∧
     (onFileChanged s html raw).bannerVisible = true) ∧
    (∀ html2 raw2,
      (onFileChanged (onFileChanged s html raw) html2 raw2).pendingRaw = some raw2 ∧
      (onFileChanged (onFileChanged s html raw) html2 raw2).pendingHtml = some html2 ∧
      (onFileChanged (onFileChanged s html raw) html2 raw2).bannersCreated =
        (onFileChanged s html raw).bannersCreated ∧
      (onFileChanged (onFileChanged s html raw) html2 raw2).editorValue =
        s.editorValue) ∧
    ((conflictKeep (onFileChanged s html raw)).editorValue = s.editorValue ∧
     (conflictKeep (onFileChanged s html raw)).currentRaw = s.currentRaw ∧
     (conflictKeep (onFileChanged s html raw)).currentHtml = s.currentHtml ∧
     (conflictKeep (onFileChanged s html raw)).pendingRaw = none ∧
     (conflictKeep (onFileChanged s html raw)).pendingHtml = none) ∧
    ((conflictReload (onFileChanged s html raw)).currentRaw = raw ∧
     (conflictReload (onFileChanged s html raw)).currentHtml = html ∧
     (conflictReload (onFileChanged s html raw)).editorValue = raw ∧
     (conflictReload (onFileChanged s html raw)).dirty = false ∧
     (conflictReload (onFileChanged s html raw)).pendingRaw = none ∧
     (conflictReload (onFileChanged s html raw)).pendingHtml = none) := by
  have h1 : onFileChanged s html raw = showConflictBanner s html raw := by
    unfold onFileChanged
    rw [if_pos hdirty]
  have hd1 : (onFileChanged s html raw).dirty = true := by
    rw [h1]; exact hdirty
  refine ⟨?_, ?_, ?_, ?_⟩
  · rw [h1]
    exact ⟨rfl, rfl, rfl, hdirty, rfl, rfl, rfl⟩
  · intro html2 raw2
    rw [h1]
    have h2 : onFileChanged (showConflictBanner s html raw) html2 raw2 =
        showConflictBanner (showConflictBanner s html raw) html2 raw2 := by
      unfold onFileChanged
      rw [if_pos (show (showConflictBanner s html raw).dirty = true from hdirty)]
    rw [h2]
    exact ⟨rfl, rfl, rfl, rfl⟩
  · rw [h1]
    exact ⟨rfl, rfl, rfl, rfl, rfl⟩
  · rw [h1]
    exact ⟨rfl, rfl, rfl, rfl, rfl, rfl⟩

/-- Witness for C5 at a concrete dirty editing session. -/
theorem dirty_external_change_conflict_witness :
    (let s : DocSt :=
      { currentRaw := "local edit", currentHtml := "<p>local edit</p>",
        dirty := true, pendingRaw := none, pendingHtml := none,
        bannerExists := false, bannerVisible := false, bannersCreated := 0,
        editorValue := "local edit" }
    (onFileChanged s "<p>ext</p>" "ext").currentRaw = s.currentRaw ∧
    (conflictReload (onFileChanged s "<p>ext</p>" "ext")).currentRaw = "ext" ∧
    (conflictReload (onFileChanged s "<p>ext</p>" "ext")).dirty = false) := by
  have h := dirty_external_change_conflict
    { currentRaw := "local edit", currentHtml := "<p>local edit</p>",
      dirty := true, pendingRaw := none, pendingHtml := none,
      bannerExists := false, bannerVisible := false, bannersCreated := 0,
      editorValue := "local edit" } "<p>ext</p>" "ext" rfl
  exact ⟨h.1.1, h.2.2.2.1, h.2.2.2.2.2.2.1⟩

/-! ## Main-process file interface (src/main.js)

`isAllowedFile` (lines 336-343) gates every open and save with the
`.md`/`.markdown` extension allow-list; `addRecentFile`/`clearRecentFiles`
(lines 345-365) maintain the recent-files list; the `save-file` IPC handler
(lines 1122-1147) refuses to write anywhere but the currently open file.
`path.resolve` and `parseMarkdown` enter as explicit function parameters
(platform collaborator and compiler respectively); the filesystem is a
path-to-content association list. -/

/-- `ALLOWED_EXTENSIONS` from src/main.js line 337. -/
def ALLOWED_EXTENSIONS : List String := [".md", ".markdown"]

/-- `MAX_RECENT_FILES` from src/main.js line 338. -/
def MAX_RECENT_FILES : Nat := 10

/-- Model of node's `path.extname`: the suffix of the basename from its last
dot, empty when the basename has no dot or only a leading dot. -/
def extname (p : String) : String :=
  let b := p.data.reverse.takeWhile fun c => c ≠ '/'
  let afterDot := b.takeWhile fun c => c ≠ '.'
  if afterDot.length = b.length then ""
  else if afterDot.length + 1 = b.length then ""
  else ⟨'.' :: afterDot.reverse⟩

/-- `isAllowedFile` from src/main.js lines 340-343. -/
def isAllowedFile (filePath : String) : Bool :=
  ALLOWED_EXTENSIONS.contains (toLowerS (extname filePath))

/-- `addRecentFile` from src/main.js lines 350-360: drop any entry with the
same path, prepend the new entry, truncate to `MAX_RECENT_FILES`. -/
def addRecentFile (p : String) (t : Nat) (l : List (String × Nat)) :
    List (String × Nat) :=
  ((p, t) :: l.filter fun e => e.1 ≠ p).take MAX_RECENT_FILES

/-- `clearRecentFiles` from src/main.js lines 362-365. -/
def clearRecentFiles : List (String × Nat) := []

/-- The stale-entry cleanup in `openRecentFile` (src/main.js lines 559-561). -/
def removeRecentFile (p : String) (l : List (String × Nat)) :
    List (String × Nat) :=
  l.filter fun e => e.1 ≠ p

/-- Module-level main-process state: the open file, the watched path, the
persisted recent list, the dirty flag, and the disk contents. -/
structure MainSt where
  currentFilePath : Option String
  watchedPath : Option String
  disk : List (String × String)
  recent : List (String × Nat)
  dirty : Bool
  deriving DecidableEq

/-- Result of the `save-file` IPC handler. -/
inductive SaveResult where
  | ok
  | err (msg : String)
  deriving DecidableEq

/-- `fs.writeFile`: create or overwrite. -/
def writeDisk (d : List (String × String)) (p c : String) :
    List (String × String) :=
  (p, c) :: d.filter fun e => e.1 ≠ p

/-- The `save-file` IPC handler (src/main.js lines 1123-1147): refuse when no
file is open, when the resolved path differs from the current file, or when
the extension is not allowed; otherwise write. -/
def saveFileHandler (resolve : String → String) (s : MainSt)
    (filePath content : String) : MainSt × SaveResult :=
  match s.currentFilePath with
  | none => (s, .err "No file is currently open.")
  | some cur =>
    let resolvedPath := resolve filePath
    if resolvedPath ≠ cur then
      (s, .err "Can only save to the currently opened file.")
    else if ¬ isAllowedFile resolvedPath then
      (s, .err "Invalid file type.")
    else
      ({ s with disk := writeDisk s.disk resolvedPath content }, .ok)

/-- The renderer's `saveFile` success path (src/renderer/renderer.js lines
2192-2203): a successful handler result clears the dirty flag (via
`setDirty(false)`, mirrored to the main process). -/
def saveFlow (resolve : String → String) (s : MainSt)
    (filePath content : String) : MainSt × SaveResult :=
  let r := saveFileHandler resolve s filePath content
  match r.2 with
  | .ok => ({ r.1 with dirty := false }, .ok)
  | .err m => (r.1, .err m)

/-- Outcome of an open operation. -/
inductive OpenOutcome where
  | opened (raw html : String)
  | rejectedType
  | ioError
  | deferredSave
  | cancelled
  deriving DecidableEq

/-- The user's answer to the unsaved-changes dialog. -/
inductive DirtyChoice where
  | save
  | dontSave
  | cancel
  deriving DecidableEq

/-- The body of `openFile` after the dirty-check preamble (src/main.js lines
955-988): validate the extension, resolve, read, then install the new current
file, restart the watch on it, and push it onto the recent list. -/
def openFileValidated (parse resolve : String → String) (t : Nat)
    (s : MainSt) (filePath : String) : MainSt × OpenOutcome :=
  if ¬ isAllowedFile filePath then (s, .rejectedType)
  else
    let resolvedPath := resolve filePath
    match s.disk.lookup resolvedPath with
    | none => (s, .ioError)
    | some content =>
      ({ s with currentFilePath := some resolvedPath,
                watchedPath := some resolvedPath,
                recent := addRecentFile resolvedPath t s.recent },
       .opened content (parse content))

/-- `openFile` (src/main.js lines 926-989) including the unsaved-changes
dialog: Save defers (save-before-open round trip), Cancel aborts, Don't Save
clears the dirty flag and proceeds to validation. -/
def openFile (parse resolve : String → String) (t : Nat)
    (choice : DirtyChoice) (skipDirtyCheck : Bool) (s : MainSt)
    (filePath : String) : MainSt × OpenOutcome :=
  if s.dirty ∧ ¬skipDirtyCheck ∧ s.currentFilePath.isSome then
    match choice with
    | .save => (s, .deferredSave)
    | .cancel => (s, .cancelled)
    | .dontSave => openFileValidated parse resolve t { s with dirty := false } filePath
  else openFileValidated parse resolve t s filePath

/-- The `open-dropped-file` IPC handler (src/main.js lines 1169-1202), whose
body duplicates the validated part of `openFile`. -/
def openDroppedFile (parse resolve : String → String) (t : Nat)
    (s : MainSt) (filePath : String) : MainSt × OpenOutcome :=
  if ¬ isAllowedFile filePath then (s, .rejectedType)
  else
    let resolvedPath := resolve filePath
    match s.disk.lookup resolvedPath with
    | none => (s, .ioError)
    | some content =>
      ({ s with currentFilePath := some resolvedPath,
                watchedPath := some resolvedPath,
                recent := addRecentFile resolvedPath t s.recent },
       .opened content (parse content))

/-- C6: the `save-file` IPC handler writes to disk exactly when a file is
open, the resolved request path equals it, and its extension is allowed; on
success the disk holds the new content at that path and the dirty flag is
cleared; in every refusal case the handler reports an error and the whole
state — disk included — is unchanged. -/
theorem save_only_current_file (resolve : String → String) (s : MainSt)
    (filePath content : String) :
    ((saveFlow resolve s filePath content).2 = .ok ↔
      ∃ cur, s.currentFilePath = some cur ∧ resolve filePath = cur ∧
        isAllowedFile cur = true) ∧
    ((saveFlow resolve s filePath content).2 = .ok →
      (saveFlow resolve s filePath content).1.disk =
        writeDisk s.disk (resolve filePath) content ∧
      (saveFlow resolve s filePath content).1.dirty = false) ∧
    ((saveFlow resolve s filePath content).2 ≠ .ok →
      (saveFlow resolve s filePath content).1 = s) := by
  cases hcur : s.currentFilePath with
  | none =>
    have heq : saveFlow resolve s filePath content =
        (s, .err "No file is currently open.") := by
      simp [saveFlow, saveFileHandler, hcur]
    rw [heq]
    refine ⟨⟨fun h => absurd h (by simp), ?_⟩, by simp, fun _ => rfl⟩
    rintro ⟨cur, hc, -, -⟩
    exact Option.noConfusion hc
  | some cur =>
    by_cases hpath : resolve filePath = cur
    · by_cases hext : isAllowedFile (resolve filePath) = true
      · have hextc : isAllowedFile cur = true := hpath ▸ hext
        have heq : saveFlow resolve s filePath content =
            ({ s with disk := writeDisk s.disk cur content,
                      dirty := false }, .ok) := by
          simp [saveFlow, saveFileHandler, hcur, hpath, hextc]
        rw [heq, hpath]
        exact ⟨⟨fun _ => ⟨cur, rfl, rfl, hextc⟩, fun _ => rfl⟩,
          fun _ => ⟨rfl, rfl⟩, fun h => absurd rfl h⟩
      · have hextc : isAllowedFile cur = false := by
          rw [← hpath]
          exact Bool.eq_false_iff.mpr hext
        have heq : saveFlow resolve s filePath content =
            (s, .err "Invalid file type.") := by
          simp [saveFlow, saveFileHandler, hcur, hpath, hextc]
        rw [heq]
        refine ⟨⟨fun h => absurd h (by simp), ?_⟩, by simp, fun _ => rfl⟩
        rintro ⟨cur', hc, hr, hall⟩
        rw [Option.some.injEq] at hc
        exact absurd (show isAllowedFile (resolve filePath) = true by
          rw [hpath, hc]; exact hall) hext
    · have heq : saveFlow resolve s filePath content =
          (s, .err "Can only save to the currently opened file.") := by
        simp [saveFlow, saveFileHandler, hcur, hpath]
      rw [heq]
      refine ⟨⟨fun h => absurd h (by simp), ?_⟩, by simp, fun _ => rfl⟩
      rintro ⟨cur', hc, hr, -⟩
      rw [Option.some.injEq] at hc
      exact absurd (hc ▸ hr) hpath

/-- Witness for C6: saving to the open file succeeds and clears dirty;
saving to a different path fails and leaves the state unchanged. -/
theorem save_only_current_file_witness :
    (let s : MainSt :=
      { currentFilePath := some "/d/a.md",
        watchedPath := some "/d/a.md", disk := [("/d/a.md", "old")],
        recent := [], dirty := true }
    ((saveFlow id s "/d/a.md" "new").2 = .ok →
      (saveFlow id s "/d/a.md" "new").1.disk =
        writeDisk s.disk "/d/a.md" "new" ∧
      (saveFlow id s "/d/a.md" "new").1.dirty = false) ∧
    (saveFlow id s "/d/a.md" "new").2 = .ok ∧
    ((saveFlow id s "/d/other.md" "new").2 ≠ .ok →
      (saveFlow id s "/d/other.md" "new").1 = s) ∧
    (saveFlow id s "/d/other.md" "new").2 ≠ .ok) := by
  refine ⟨?_, ?_, ?_, ?_⟩
  · exact (save_only_current_file id _ "/d/a.md" "new").2.1
  · exact (save_only_current_file id _ "/d/a.md" "new").1.mpr
      ⟨"/d/a.md", rfl, rfl, by decide⟩
  · exact (save_only_current_file id _ "/d/other.md" "new").2.2
  · intro h
    obtain ⟨cur, hc, hr, -⟩ := (save_only_current_file id _ "/d/other.md" "new").1.mp h
    rw [Option.some.injEq] at hc
    rw [← hc] at hr
    exact absurd hr (by decide)

/-- C9: the extension allow-list gates the whole public file interface: a
path whose lowercased extension is not `.md` or `.markdown` makes `openFile`
(whenever its unsaved-changes preamble does not already divert the flow),
the `open-dropped-file` handler, and the `save-file` handler all return an
error without reading, watching, or writing anything — the open file, the
watch, the disk and the recent list are untouched. -/
theorem extension_allowlist_gates_io (parse resolve : String → String)
    (t : Nat) (choice : DirtyChoice) (skip : Bool) (s : MainSt)
    (filePath content : String) (hbad : isAllowedFile filePath = false) :
    ((s.dirty = false ∨ skip = true ∨ s.currentFilePath = none ∨
        choice = .dontSave) →
      (openFile parse resolve t choice skip s filePath).2 = .rejectedType ∧
      (openFile parse resolve t choice skip s filePath).1.currentFilePath =
        s.currentFilePath ∧
      (openFile parse resolve t choice skip s filePath).1.watchedPath =
        s.watchedPath ∧
      (openFile parse resolve t choice skip s filePath).1.disk = s.disk ∧
      (openFile parse resolve t choice skip s filePath).1.recent = s.recent) ∧
    ((openDroppedFile parse resolve t s filePath).2 = .rejectedType ∧
      (openDroppedFile parse resolve t s filePath).1 = s) ∧
    (isAllowedFile (resolve filePath) = false →
      (saveFileHandler resolve s filePath content).2 ≠ .ok ∧
      (saveFileHandler resolve s filePath content).1 = s) ∧
    isAllowedFile "note.md" = true ∧ isAllowedFile "NOTE.MD" = true ∧
    isAllowedFile "a.markdown" = true ∧ isAllowedFile "evil.txt" = false ∧
    isAllowedFile "script.md.exe" = false := by
  have hval : ∀ s' : MainSt, openFileValidated parse resolve t s' filePath =
      (s', .rejectedType) := by
    intro s'
    unfold openFileValidated
    rw [if_pos (by simp [hbad])]
  refine ⟨?_, ?_, ?_, by decide, by decide, by decide, by decide, by decide⟩
  · intro hreach
    unfold openFile
    by_cases hpre : s.dirty ∧ ¬skip = true ∧ s.currentFilePath.isSome
    · rw [if_pos hpre]
      obtain ⟨hd, hs, hc⟩ := hpre
      rcases hreach with h | h | h | h
      · rw [h] at hd; exact absurd hd (by simp)
      · exact absurd h (by simpa using hs)
      · rw [h] at hc; exact absurd hc (by simp)
      · rw [h]
        rw [hval { s with dirty := false }]
        exact ⟨rfl, rfl, rfl, rfl, rfl⟩
    · rw [if_neg hpre, hval s]
      exact ⟨rfl, rfl, rfl, rfl, rfl⟩
  · unfold openDroppedFile
    rw [if_pos (by simp [hbad])]
    exact ⟨rfl, rfl⟩
  · intro hbad2
    cases hcur2 : s.currentFilePath with
    | none =>
      have heq : saveFileHandler resolve s filePath content =
          (s, .err "No file is currently open.") := by
        simp [saveFileHandler, hcur2]
      rw [heq]
      exact ⟨by simp, rfl⟩
    | some cur =>
      by_cases hpath : resolve filePath = cur
      · have hextc : isAllowedFile cur = false := by
          rw [← hpath]; exact hbad2
        have heq : saveFileHandler resolve s filePath content =
            (s, .err "Invalid file type.") := by
          simp [saveFileHandler, hcur2, hpath, hextc]
        rw [heq]
        exact ⟨by simp, rfl⟩
      · have heq : saveFileHandler resolve s filePath content =
            (s, .err "Can only save to the currently opened file.") := by
          simp [saveFileHandler, hcur2, hpath]
        rw [heq]
        exact ⟨by simp, rfl⟩

/-- Witness for C9 at a `.txt` path. -/
theorem extension_allowlist_gates_io_witness :
    (let s : MainSt :=
      { currentFilePath := none, watchedPath := none,
        disk := [("evil.txt", "boom")], recent := [], dirty := false }
    (openFile id id 0 .cancel false s "evil.txt").2 = .rejectedType ∧
    (openDroppedFile id id 0 s "evil.txt").1 = s ∧
    (saveFileHandler id s "evil.txt" "x").2 ≠ .ok) := by
  have h := extension_allowlist_gates_io id id 0 .cancel false
    { currentFilePath := none, watchedPath := none,
      disk := [("evil.txt", "boom")], recent := [], dirty := false }
    "evil.txt" "x" (by decide)
  exact ⟨(h.1 (Or.inl rfl)).1, h.2.1.2, (h.2.2.1 (by decide)).1⟩

/-! ## Recent-files list invariant (src/main.js lines 345-365) -/

/-- The operations that touch the persisted recent-files list. -/
inductive RecentOp where
  | add (p : String) (t : Nat)
  | clear
  | removeMissing (p : String)

/-- One store update. -/
def recentStep (l : List (String × Nat)) : RecentOp → List (String × Nat)
  | .add p t => addRecentFile p t l
  | .clear => clearRecentFiles
  | .removeMissing p => removeRecentFile p l

/-- Run the store history from the default `recentFiles: []`. -/
def recentRun (ops : List RecentOp) : List (String × Nat) :=
  ops.foldl recentStep []

theorem addRecentFile_nodup (p : String) (t : Nat) (l : List (String × Nat))
    (h : (l.map Prod.fst).Nodup) :
    ((addRecentFile p t l).map Prod.fst).Nodup := by
  unfold addRecentFile
  refine List.Nodup.sublist (List.Sublist.map _ (List.take_sublist _ _)) ?_
  rw [List.map_cons, List.nodup_cons]
  constructor
  · intro hmem
    rw [List.mem_map] at hmem
    obtain ⟨e, he, hfst⟩ := hmem
    rw [List.mem_filter] at he
    have := he.2
    rw [hfst] at this
    simp at this
  · exact List.Nodup.sublist (List.Sublist.map _ (List.filter_sublist _)) h

theorem addRecentFile_len (p : String) (t : Nat) (l : List (String × Nat)) :
    (addRecentFile p t l).length ≤ MAX_RECENT_FILES := by
  unfold addRecentFile
  exact List.length_take_le _ _

/-- C10: starting from the empty default, every history of recent-file
operations leaves a list with pairwise distinct paths and length at most 10;
`addRecentFile p` puts `p` first, keeps paths distinct and keeps length at
most 10; `clearRecentFiles` empties the list. -/
theorem recent_files_invariant (ops : List RecentOp) :
    ((recentRun ops).map Prod.fst).Nodup ∧
    (recentRun ops).length ≤ MAX_RECENT_FILES ∧
    (∀ p t, (addRecentFile p t (recentRun ops)).head? = some (p, t) ∧
      ((addRecentFile p t (recentRun ops)).map Prod.fst).Nodup ∧
      (addRecentFile p t (recentRun ops)).length ≤ MAX_RECENT_FILES) ∧
    recentStep (recentRun ops) .clear = [] := by
  have hmain : ((recentRun ops).map Prod.fst).Nodup ∧
      (recentRun ops).length ≤ MAX_RECENT_FILES := by
    unfold recentRun
    suffices h : ∀ l : List (String × Nat), (l.map Prod.fst).Nodup →
        l.length ≤ MAX_RECENT_FILES →
        ((ops.foldl recentStep l).map Prod.fst).Nodup ∧
        (ops.foldl recentStep l).length ≤ MAX_RECENT_FILES from
      h [] (by simp) (by simp [MAX_RECENT_FILES])
    induction ops with
    | nil => exact fun l h1 h2 => ⟨h1, h2⟩
    | cons op rest ih =>
      intro l h1 h2
      refine ih (recentStep l op) ?_ ?_
      · cases op with
        | add p t => exact addRecentFile_nodup p t l h1
        | clear => simp [recentStep, clearRecentFiles]
        | removeMissing p =>
          exact List.Nodup.sublist
            (List.Sublist.map _ (List.filter_sublist _)) h1
      · cases op with
        | add p t => exact addRecentFile_len p t l
        | clear => simp [recentStep, clearRecentFiles, MAX_RECENT_FILES]
        | removeMissing p =>
          exact Nat.le_trans (List.length_filter_le _ _) h2
  refine ⟨hmain.1, hmain.2, ?_, rfl⟩
  intro p t
  refine ⟨?_, addRecentFile_nodup p t _ hmain.1, addRecentFile_len p t _⟩
  unfold addRecentFile MAX_RECENT_FILES
  rw [List.take_succ_cons]
  rfl

/-! ## In-document search (src/renderer/renderer.js, `performSearch` lines
1957-2061, `clearSearch` lines 1943-1955)

The rendered document is the element tree under `contentEl`.  `performSearch`
first calls `clearSearch`, then walks every text node, splits each matched
text node into plain text fragments and `mark.search-highlight` elements
whose concatenated text equals the original node text; `clearSearch` replaces
every `mark.search-highlight` with a text node holding its text content and
normalizes the parent's subtree (merging adjacent text nodes and dropping
empty ones).  The chunked scheduling (100 nodes per animation frame) only
spreads the same mutations over time, so the model applies them all. -/

mutual
/-- Concatenated text of a node, as a character list. -/
def textContentL : XmlNode → List Char
  | .text s => s.data
  | .elem _ _ cs => textContentLF cs
/-- Concatenated text of a sibling list. -/
def textContentLF : XmlForest → List Char
  | .nil => []
  | .cons x xs => textContentL x ++ textContentLF xs
end

/-- DOM `textContent` of a node. -/
def textContent (x : XmlNode) : String := ⟨textContentL x⟩

/-- Forest concatenation (splicing a node's replacement fragments in place
among its siblings). -/
def appendF : XmlForest → XmlForest → XmlForest
  | .nil, g => g
  | .cons x xs, g => .cons x (appendF xs g)

/-- The `mark.search-highlight` selector: a `mark` element whose class is the
`search-highlight` class the search engine assigns. -/
def isSearchMark : XmlNode → Bool
  | .text _ => false
  | .elem name attrs _ =>
    decide (name = "mark") && decide (attrs.lookup "class" = some "search-highlight")

/-- Whether some direct child is a search-highlight mark. -/
def hasMarkF : XmlForest → Bool
  | .nil => false
  | .cons x xs => isSearchMark x || hasMarkF xs

/-- DOM `Node.normalize()`: drop empty text nodes and merge adjacent text
nodes, over the whole subtree. -/
def normalizeF : XmlForest → XmlForest
  | .nil => .nil
  | .cons (.elem n a cs) rest => .cons (.elem n a (normalizeF cs)) (normalizeF rest)
  | .cons (.text s) rest =>
    if s = "" then normalizeF rest
    else
      match normalizeF rest with
      | .cons (.text s2) rest2 => .cons (.text (s ++ s2)) rest2
      | r => .cons (.text s) r

mutual
/-- `clearSearch` over a sibling list: each `mark.search-highlight` is
replaced by a text node holding its text content
(`parent.replaceChild(document.createTextNode(mark.textContent), mark)`);
other nodes are cleared recursively. -/
def clearF : XmlForest → XmlForest
  | .nil => .nil
  | .cons x xs =>
    if isSearchMark x then .cons (.text (textContent x)) (clearF xs)
    else .cons (clearDeep x) (clearF xs)
/-- `clearSearch` below a node; an element that directly contained a mark is
the `parent` on which `parent.normalize()` runs. -/
def clearDeep : XmlNode → XmlNode
  | .text s => .text s
  | .elem n a cs =>
    .elem n a (if hasMarkF cs then normalizeF (clearF cs) else clearF cs)
end

/-- Lowercasing of a character list (`text.toLowerCase()` index-aligned with
`text`). -/
def lowerL (l : List Char) : List Char := l.map Char.toLower

/-- JS `hay.indexOf(pat)`: index of the first occurrence. -/
def findSub (pat : List Char) : List Char → Option Nat
  | [] => if isPrefixL pat [] then some 0 else none
  | c :: rest =>
    if isPrefixL pat (c :: rest) then some 0
    else (findSub pat rest).map (· + 1)

/-- A highlight mark created by `performSearch`
(`mark.className = 'search-highlight'; mark.textContent = slice`). -/
def mkMark (s : String) : XmlNode :=
  .elem "mark" [("class", "search-highlight")]
    (if s = "" then .nil else .cons (.text s) .nil)

/-- The per-text-node matching loop of `performSearch` (lines 1995-2034):
scan the lowercased text for the lowercased query, emitting the plain text
before each match and a mark for each matched slice, resuming after the
match; the trailing text is kept only when nonempty, and an unmatched node
stays a single text node.  The fuel bounds the number of matches (each match
consumes at least one character when the query is nonempty). -/
def splitFrags (q : List Char) : Nat → List Char → XmlForest
  | 0, s => .cons (.text ⟨s⟩) .nil
  | fuel + 1, s =>
    match findSub (lowerL q) (lowerL s) with
    | none => .cons (.text ⟨s⟩) .nil
    | some i =>
      let pre := s.take i
      let m := (s.drop i).take q.length
      let rest := s.drop (i + q.length)
      let tail := XmlForest.cons (mkMark ⟨m⟩)
        (if rest = [] then .nil else splitFrags q fuel rest)
      if pre = [] then tail else .cons (.text ⟨pre⟩) tail

mutual
/-- Apply the matching loop to every text node of the tree, splicing each
node's fragments in place. -/
def searchNode (q : String) : XmlNode → XmlForest
  | .text s => splitFrags q.data (s.data.length + 1) s.data
  | .elem n a cs => .cons (.elem n a (searchForest q cs)) .nil
/-- Search every node of a sibling list. -/
def searchForest (q : String) : XmlForest → XmlForest
  | .nil => .nil
  | .cons x xs => appendF (searchNode q x) (searchForest q xs)
end

/-- JS `String.prototype.trim` whitespace test (space, tab, newline,
carriage return, form feed). -/
def isWsChar (c : Char) : Bool :=
  c = ' ' || c = Char.ofNat 9 || c = Char.ofNat 10 || c = Char.ofNat 13 ||
  c = Char.ofNat 12

/-- `performSearch` on the document root (lines 1959-2061): clear any
existing highlights, return unchanged for an effectively empty query,
otherwise highlight every case-insensitive occurrence below the root. -/
def performSearchDoc (q : String) (root : XmlNode) : XmlNode :=
  let r := clearDeep root
  if (q.data.filter fun c => !isWsChar c) = [] then r
  else
    match r with
    | .text s => .text s
    | .elem n a cs => .elem n a (searchForest q cs)

/-- `clearSearch` on the document root (lines 1943-1955). -/
def clearSearchDoc (root : XmlNode) : XmlNode := clearDeep root

/-! ### The round-trip invariant -/

theorem textContentLF_appendF : ∀ f g : XmlForest,
    textContentLF (appendF f g) = textContentLF f ++ textContentLF g
  | .nil, g => by simp [appendF, textContentLF]
  | .cons x xs, g => by
    simp only [appendF, textContentLF]
    rw [textContentLF_appendF xs g, List.append_assoc]

theorem textContentL_textL (l : List Char) : textContentL (.text ⟨l⟩) = l := rfl

theorem textContentL_mkMark (s : String) : textContentL (mkMark s) = s.data := by
  unfold mkMark
  by_cases hs : s = ""
  · rw [if_pos hs, hs]
    rfl
  · rw [if_neg hs]
    simp [textContentL, textContentLF]

theorem textContentL_mkMarkL (l : List Char) : textContentL (mkMark ⟨l⟩) = l :=
  textContentL_mkMark ⟨l⟩

theorem textContentLF_normalizeF (f : XmlForest) :
    textContentLF (normalizeF f) = textContentLF f := by
  induction f using normalizeF.induct with
  | case1 => rfl
  | case2 n a cs rest ih1 ih2 =>
    simp only [normalizeF, textContentLF, textContentL]
    rw [ih1, ih2]
  | case3 rest ih =>
    have hn : normalizeF (.cons (.text "") rest) = normalizeF rest := by
      simp [normalizeF]
    rw [hn, ih]
    rfl
  | case4 s rest hs s2 rest2 hrec ih =>
    simp only [normalizeF, if_neg hs, hrec]
    simp only [textContentLF, textContentL, String.data_append]
    rw [← ih, hrec]
    simp only [textContentLF, textContentL, List.append_assoc]
  | case5 s rest hs hnone ih =>
    simp only [normalizeF, if_neg hs]
    cases hr : normalizeF rest with
    | nil =>
      rw [hr] at ih
      simp only [textContentLF, textContentL] at ih ⊢
      rw [← ih]
    | cons y ys =>
      cases y with
      | text s2 => exact absurd hr (hnone s2 ys)
      | elem n a cs =>
        rw [hr] at ih
        simp only [textContentLF, textContentL] at ih ⊢
        rw [← ih]

mutual
theorem textContentL_clearDeep : ∀ x : XmlNode,
    textContentL (clearDeep x) = textContentL x
  | .text s => rfl
  | .elem n a cs => by
    simp only [clearDeep, textContentL]
    by_cases h : hasMarkF cs = true
    · rw [if_pos h, textContentLF_normalizeF, textContentLF_clearF cs]
    · rw [if_neg h, textContentLF_clearF cs]
theorem textContentLF_clearF : ∀ f : XmlForest,
    textContentLF (clearF f) = textContentLF f
  | .nil => rfl
  | .cons x xs => by
    simp only [clearF]
    by_cases h : isSearchMark x = true
    · rw [if_pos h]
      simp only [textContentLF, textContentL, textContent]
      rw [textContentLF_clearF xs]
    · rw [if_neg h]
      simp only [textContentLF]
      rw [textContentL_clearDeep x, textContentLF_clearF xs]
end

theorem textContentLF_splitFrags (q : List Char) (fuel : Nat) :
    ∀ s : List Char, textContentLF (splitFrags q fuel s) = s := by
  induction fuel with
  | zero =>
    intro s
    simp only [splitFrags, textContentLF, textContentL_textL, List.append_nil]
  | succ fuel ih =>
    intro s
    simp only [splitFrags]
    cases hfind : findSub (lowerL q) (lowerL s) with
    | none =>
      simp only [textContentLF, textContentL_textL, List.append_nil]
    | some i =>
      simp only
      have hdd : s.drop (i + q.length) = (s.drop i).drop q.length := by
        rw [List.drop_drop, Nat.add_comm]
      have htail : textContentLF (if s.drop (i + q.length) = [] then XmlForest.nil
          else splitFrags q fuel (s.drop (i + q.length))) = s.drop (i + q.length) := by
        by_cases hr : s.drop (i + q.length) = []
        · rw [if_pos hr, hr]
          rfl
        · rw [if_neg hr]
          exact ih _
      by_cases hpre : s.take i = []
      · rw [if_pos hpre]
        simp only [textContentLF]
        rw [textContentL_mkMarkL, htail, hdd, List.take_append_drop]
        conv_rhs => rw [← List.take_append_drop i s]
        rw [hpre]
        rfl
      · rw [if_neg hpre]
        simp only [textContentLF]
        rw [textContentL_textL, textContentL_mkMarkL, htail, hdd,
          List.take_append_drop, List.take_append_drop]

mutual
theorem textContentLF_searchNode (q : String) : ∀ x : XmlNode,
    textContentLF (searchNode q x) = textContentL x
  | .text s => by
    simp only [searchNode, textContentLF]
    rw [textContentLF_splitFrags]
    rfl
  | .elem n a cs => by
    simp only [searchNode, textContentLF, textContentL]
    rw [textContentLF_searchForest q cs, List.append_nil]
theorem textContentLF_searchForest (q : String) : ∀ f : XmlForest,
    textContentLF (searchForest q f) = textContentLF f
  | .nil => rfl
  | .cons x xs => by
    simp only [searchForest]
    rw [textContentLF_appendF, textContentLF_searchNode q x,
      textContentLF_searchForest q xs]
    rfl
end

mutual
/-- No `mark.search-highlight` marker survives anywhere in the node. -/
def noMarksN : XmlNode → Bool
  | .text _ => true
  | .elem n a cs => !isSearchMark (.elem n a cs) && noMarksF cs
/-- No marker survives anywhere in the sibling list. -/
def noMarksF : XmlForest → Bool
  | .nil => true
  | .cons x xs => noMarksN x && noMarksF xs
end

theorem noMarksF_normalizeF (f : XmlForest) (h : noMarksF f = true) :
    noMarksF (normalizeF f) = true := by
  induction f using normalizeF.induct with
  | case1 => rfl
  | case2 n a cs rest ih1 ih2 =>
    simp only [noMarksF, noMarksN, Bool.and_eq_true] at h
    obtain ⟨⟨hm, hcs⟩, hrest⟩ := h
    simp only [normalizeF, noMarksF, noMarksN, Bool.and_eq_true]
    exact ⟨⟨hm, ih1 hcs⟩, ih2 hrest⟩
  | case3 rest ih =>
    simp only [noMarksF, Bool.and_eq_true] at h
    have hn : normalizeF (.cons (.text "") rest) = normalizeF rest := by
      simp [normalizeF]
    rw [hn]
    exact ih h.2
  | case4 s rest hs s2 rest2 hrec ih =>
    simp only [noMarksF, Bool.and_eq_true] at h
    have hthis := ih h.2
    rw [hrec] at hthis
    simp only [normalizeF, if_neg hs, hrec]
    have goalEq : noMarksF (.cons (.text (s ++ s2)) rest2) = noMarksF rest2 := by
      simp [noMarksF, noMarksN]
    have thisEq : noMarksF (.cons (.text s2) rest2) = noMarksF rest2 := by
      simp [noMarksF, noMarksN]
    rw [goalEq]
    rw [thisEq] at hthis
    exact hthis
  | case5 s rest hs hnone ih =>
    simp only [noMarksF, Bool.and_eq_true] at h
    simp only [normalizeF, if_neg hs]
    cases hr : normalizeF rest with
    | nil => rfl
    | cons y ys =>
      cases y with
      | text s2 => exact absurd hr (hnone s2 ys)
      | elem n a cs =>
        have hthis := ih h.2
        rw [hr] at hthis
        have goalEq : noMarksF (.cons (.text s) (.cons (.elem n a cs) ys)) =
            noMarksF (.cons (.elem n a cs) ys) := by
          simp [noMarksF, noMarksN]
        rw [goalEq]
        exact hthis

mutual
theorem noMarksN_clearDeep : ∀ x : XmlNode, isSearchMark x = false →
    noMarksN (clearDeep x) = true
  | .text s, _ => rfl
  | .elem n a cs, hx => by
    simp only [clearDeep, noMarksN, Bool.and_eq_true]
    constructor
    · show (!isSearchMark (.elem n a cs)) = true
      rw [hx]
      rfl
    · by_cases h : hasMarkF cs = true
      · rw [if_pos h]
        exact noMarksF_normalizeF _ (noMarksF_clearF cs)
      · rw [if_neg h]
        exact noMarksF_clearF cs
theorem noMarksF_clearF : ∀ f : XmlForest, noMarksF (clearF f) = true
  | .nil => rfl
  | .cons x xs => by
    simp only [clearF]
    by_cases h : isSearchMark x = true
    · rw [if_pos h]
      have goalEq : noMarksF (.cons (.text (textContent x)) (clearF xs)) =
          noMarksF (clearF xs) := by
        simp [noMarksF, noMarksN]
      rw [goalEq]
      exact noMarksF_clearF xs
    · rw [if_neg h]
      simp only [noMarksF, Bool.and_eq_true]
      exact ⟨noMarksN_clearDeep x (Bool.eq_false_iff.mpr h), noMarksF_clearF xs⟩
end

theorem isSearchMark_performSearchDoc (q : String) : ∀ root : XmlNode,
    isSearchMark root = false → isSearchMark (performSearchDoc q root) = false
  | .text s, _ => by
    unfold performSearchDoc
    split
    · rfl
    · rfl
  | .elem n a cs, hroot => by
    unfold performSearchDoc
    split
    · exact hroot
    · exact hroot

/-- C7: running `performSearch(query)` and then `clearSearch()` on any
rendered document tree restores a text content identical, character for
character, to the pre-search text content, and not a single inserted
`mark.search-highlight` marker survives anywhere in the resulting tree (the
root is the `contentEl` container, itself never a highlight mark). -/
theorem search_clear_roundtrip (q : String) (root : XmlNode)
    (hroot : isSearchMark root = false) :
    textContent (clearSearchDoc (performSearchDoc q root)) = textContent root ∧
    noMarksN (clearSearchDoc (performSearchDoc q root)) = true := by
  refine ⟨?_, noMarksN_clearDeep _ (isSearchMark_performSearchDoc q root hroot)⟩
  unfold textContent clearSearchDoc performSearchDoc
  congr 1
  by_cases hq : (q.data.filter fun c => !isWsChar c) = []
  · rw [if_pos hq, textContentL_clearDeep, textContentL_clearDeep]
  · rw [if_neg hq]
    cases hr : clearDeep root with
    | text s =>
      have hclear := textContentL_clearDeep root
      rw [hr] at hclear
      exact hclear
    | elem n a cs =>
      have hclear := textContentL_clearDeep root
      rw [hr] at hclear
      show textContentL (clearDeep (.elem n a (searchForest q cs))) =
        textContentL root
      rw [textContentL_clearDeep (.elem n a (searchForest q cs))]
      show textContentLF (searchForest q cs) = textContentL root
      rw [textContentLF_searchForest, ← hclear]
      rfl

/-- Witness for C7 on a concrete two-match document. -/
theorem search_clear_roundtrip_witness :
    (let doc : XmlNode := .elem "div" []
      (.cons (.text "Hello World, hello!")
        (.cons (.elem "p" [] (.cons (.text "heLLo") .nil)) .nil))
    isSearchMark doc = false ∧
    textContent (clearSearchDoc (performSearchDoc "hello" doc)) =
      textContent doc ∧
    noMarksN (clearSearchDoc (performSearchDoc "hello" doc)) = true) := by
  have h := search_clear_roundtrip "hello"
    (.elem "div" []
      (.cons (.text "Hello World, hello!")
        (.cons (.elem "p" [] (.cons (.text "heLLo") .nil)) .nil)))
    (by decide)
  exact ⟨by decide, h.1, h.2⟩

/-! ## Split-view scroll synchronization (src/renderer/renderer.js,
`setupSyncScroll` lines 1470-1510)

Pane geometry (scrollTop, scrollHeight, clientHeight) is modelled over ℚ, the
exact idealization of the pixel arithmetic.  The two in-flight flags
(`isSyncingFromSource`, `isSyncingFromPreview`) suppress the counter-update
while a programmatic scroll from the other pane is being delivered; each is
reset by a `requestAnimationFrame` callback. -/

structure Pane where
  scrollTop : ℚ
  scrollHeight : ℚ
  clientHeight : ℚ
  deriving DecidableEq

/-- The split-view scroll state: both panes, the two suppression flags and
the `syncScrollEnabled` preference. -/
structure SplitSt where
  source : Pane
  preview : Pane
  syncingFromSource : Bool
  syncingFromPreview : Bool
  enabled : Bool
  deriving DecidableEq

/-- The scroll handler on the source pane (lines 1475-1491): bail out when
sync is disabled or a programmatic scroll from the preview is in flight; bail
out before dividing when either pane has no scrollable extent; otherwise set
the preview to the same scroll proportion and raise the in-flight flag. -/
def onSourceScroll (s : SplitSt) : SplitSt :=
  if s.enabled = false ∨ s.syncingFromPreview = true then s
  else
    let sourceScrollable := s.source.scrollHeight - s.source.clientHeight
    let previewScrollable := s.preview.scrollHeight - s.preview.clientHeight
    if sourceScrollable ≤ 0 ∨ previewScrollable ≤ 0 then s
    else
      { s with
        preview :=
          { s.preview with
            scrollTop := s.source.scrollTop / sourceScrollable * previewScrollable },
        syncingFromSource := true }

/-- The scroll handler on the preview pane (lines 1493-1509), symmetric. -/
def onPreviewScroll (s : SplitSt) : SplitSt :=
  if s.enabled = false ∨ s.syncingFromSource = true then s
  else
    let previewScrollable := s.preview.scrollHeight - s.preview.clientHeight
    let sourceScrollable := s.source.scrollHeight - s.source.clientHeight
    if previewScrollable ≤ 0 ∨ sourceScrollable ≤ 0 then s
    else
      { s with
        source :=
          { s.source with
            scrollTop := s.preview.scrollTop / previewScrollable * sourceScrollable },
        syncingFromPreview := true }

/-- The `requestAnimationFrame` callbacks (lines 1488-1490, 1506-1508). -/
def rafResetSource (s : SplitSt) : SplitSt := { s with syncingFromSource := false }

/-- Reset of the preview-origin in-flight flag. -/
def rafResetPreview (s : SplitSt) : SplitSt := { s with syncingFromPreview := false }

/-- C8: with sync enabled and no programmatic scroll in flight, a scroll on
either pane whose scrollable extents are both positive sets the other pane to
the same scroll proportion `scrollTop / (scrollHeight - clientHeight)` and
leaves the scrolled pane itself untouched; when either extent is zero or
negative the handler is an exact no-op (no division happens); and while a
programmatic scroll from the other pane is in flight the handler is an exact
no-op. -/
theorem split_scroll_sync (s : SplitSt) :
    (s.enabled = true → s.syncingFromPreview = false →
      0 < s.source.scrollHeight - s.source.clientHeight →
      0 < s.preview.scrollHeight - s.preview.clientHeight →
      (onSourceScroll s).preview.scrollTop /
          ((onSourceScroll s).preview.scrollHeight -
            (onSourceScroll s).preview.clientHeight) =
        s.source.scrollTop / (s.source.scrollHeight - s.source.clientHeight) ∧
      (onSourceScroll s).source = s.source) ∧
    (s.enabled = true → s.syncingFromSource = false →
      0 < s.preview.scrollHeight - s.preview.clientHeight →
      0 < s.source.scrollHeight - s.source.clientHeight →
      (onPreviewScroll s).source.scrollTop /
          ((onPreviewScroll s).source.scrollHeight -
            (onPreviewScroll s).source.clientHeight) =
        s.preview.scrollTop / (s.preview.scrollHeight - s.preview.clientHeight) ∧
      (onPreviewScroll s).preview = s.preview) ∧
    (s.source.scrollHeight - s.source.clientHeight ≤ 0 ∨
        s.preview.scrollHeight - s.preview.clientHeight ≤ 0 →
      onSourceScroll s = s ∧ onPreviewScroll s = s) ∧
    (s.syncingFromPreview = true → onSourceScroll s = s) ∧
    (s.syncingFromSource = true → onPreviewScroll s = s) := by
  refine ⟨?_, ?_, ?_, ?_, ?_⟩
  · intro hen hfl hss hps
    have heq : onSourceScroll s =
        { s with
          preview :=
            { s.preview with
              scrollTop := s.source.scrollTop /
                (s.source.scrollHeight - s.source.clientHeight) *
                (s.preview.scrollHeight - s.preview.clientHeight) },
          syncingFromSource := true } := by
      unfold onSourceScroll
      rw [if_neg (by simp [hen, hfl]), if_neg (by push_neg; constructor <;> linarith)]
    rw [heq]
    refine ⟨?_, rfl⟩
    show s.source.scrollTop / (s.source.scrollHeight - s.source.clientHeight) *
        (s.preview.scrollHeight - s.preview.clientHeight) /
        (s.preview.scrollHeight - s.preview.clientHeight) = _
    rw [mul_div_cancel_right₀ _ (ne_of_gt hps)]
  · intro hen hfl hps hss
    have heq : onPreviewScroll s =
        { s with
          source :=
            { s.source with
              scrollTop := s.preview.scrollTop /
                (s.preview.scrollHeight - s.preview.clientHeight) *
                (s.source.scrollHeight - s.source.clientHeight) },
          syncingFromPreview := true } := by
      unfold onPreviewScroll
      rw [if_neg (by simp [hen, hfl]), if_neg (by push_neg; constructor <;> linarith)]
    rw [heq]
    refine ⟨?_, rfl⟩
    show s.preview.scrollTop / (s.preview.scrollHeight - s.preview.clientHeight) *
        (s.source.scrollHeight - s.source.clientHeight) /
        (s.source.scrollHeight - s.source.clientHeight) = _
    rw [mul_div_cancel_right₀ _ (ne_of_gt hss)]
  · intro hdeg
    constructor
    · unfold onSourceScroll
      split
      · rfl
      · rw [if_pos (by tauto)]
    · unfold onPreviewScroll
      split
      · rfl
      · rw [if_pos (by tauto)]
  · intro hfl
    unfold onSourceScroll
    rw [if_pos (Or.inr hfl)]
  · intro hfl
    unfold onPreviewScroll
    rw [if_pos (Or.inr hfl)]

/-- Witness for C8 at a concrete geometry (source extent 1, preview extent 2,
scroll position 1). -/
theorem split_scroll_sync_witness :
    (let s : SplitSt :=
      { source := { scrollTop := 1, scrollHeight := 1, clientHeight := 0 },
        preview := { scrollTop := 0, scrollHeight := 2, clientHeight := 0 },
        syncingFromSource := false, syncingFromPreview := false,
        enabled := true }
    ((onSourceScroll s).preview.scrollTop /
        ((onSourceScroll s).preview.scrollHeight -
          (onSourceScroll s).preview.clientHeight) =
      s.source.scrollTop / (s.source.scrollHeight - s.source.clientHeight) ∧
     (onSourceScroll s).source = s.source) ∧
    onPreviewScroll { s with syncingFromSource := true } =
      { s with syncingFromSource := true }) := by
  constructor
  · exact (split_scroll_sync _).1 rfl rfl (by simp) (by simp)
  · exact (split_scroll_sync _).2.2.2.2 rfl

end Inkwell
